import Mathlib

/-!
Verification of the Lakebase image-serving repository's database layer
(`src/database.py`), image fetcher (`src/image_service.py`) and configuration
(`src/config.py`), as a shallow embedding: SQL queries over the single
image-predictions table are modelled as list operations over a list of rows,
Python string manipulation as functions over character lists, and the
token/pool life cycle as an explicit state machine instrumented with counters.
-/

namespace Lakebase

/-- Constant `TOKEN_REFRESH_INTERVAL` from `src/config.py` (seconds). -/
def TOKEN_REFRESH_INTERVAL : Nat := 900

/-- Constant `VOLUME_BASE_PATH` from `src/config.py`. -/
def VOLUME_BASE_PATH : String := "/Volumes/demos/image_app/images"

/-! ### Python string primitives, modelled over `List Char` -/

/-- ASCII lowercase of one character (Python `str.lower`, restricted to
ASCII, which covers every string the code handles). -/
def lowerChar (c : Char) : Char :=
  if 65 ≤ c.toNat ∧ c.toNat ≤ 90 then Char.ofNat (c.toNat + 32) else c

/-- Python `str.lower` on a character list. -/
def lowerL (cs : List Char) : List Char := cs.map lowerChar

/-- Whether `needle` is a leading chunk of `hay` (Python `str.startswith`). -/
def startsWithL : List Char → List Char → Bool
  | [], _ => true
  | _ :: _, [] => false
  | n :: ns, h :: hs => n == h && startsWithL ns hs

/-- Whether `needle` is a trailing chunk of `hay` (Python `str.endswith`). -/
def endsWithL (needle hay : List Char) : Bool :=
  startsWithL needle.reverse hay.reverse

/-- First index at which `needle` occurs in `hay`, if any (Python `str.find`,
restricted to the found case; the not-found case is `none` rather than −1). -/
def findSub (needle : List Char) : List Char → Option Nat
  | [] => if startsWithL needle [] then some 0 else none
  | h :: hs =>
    if startsWithL needle (h :: hs) then some 0
    else (findSub needle hs).map Nat.succ

/-- Substring containment (Python `needle in hay`). -/
def containsSub (needle hay : List Char) : Bool :=
  (findSub needle hay).isSome

/-- One fuel-indexed pass of replace-all; fuel bounds the number of consumed
characters, so `fuel = hay.length` always suffices. -/
def replaceFuel (pat rep : List Char) : Nat → List Char → List Char
  | 0, s => s
  | _ + 1, [] => []
  | n + 1, c :: cs =>
    if startsWithL pat (c :: cs) then
      rep ++ replaceFuel pat rep n (cs.drop (pat.length - 1))
    else
      c :: replaceFuel pat rep n cs

/-- Python `str.replace(pat, rep)` for a nonempty pattern: every occurrence
of `pat`, scanned left to right, is replaced by `rep`. -/
def replaceAllL (pat rep s : List Char) : List Char :=
  replaceFuel pat rep s.length s

/-- Python `str.strip()`: leading and trailing whitespace removed. -/
def trimL (cs : List Char) : List Char :=
  ((cs.dropWhile Char.isWhitespace).reverse.dropWhile Char.isWhitespace).reverse

/-- Python `str.isdigit()` (ASCII): nonempty and all digits. -/
def isDigitL (cs : List Char) : Bool :=
  !cs.isEmpty && cs.all Char.isDigit

/-- Lexicographic code-point order on character lists, as a Boolean:
the order PostgreSQL's `ORDER BY` produces under the C collation. -/
def leL : List Char → List Char → Bool
  | [], _ => true
  | _ :: _, [] => false
  | a :: as, b :: bs =>
    if a.toNat = b.toNat then leL as bs else decide (a.toNat < b.toNat)

/-- Lexicographic order on strings (the `ORDER BY` order), as a proposition. -/
def strLe (a b : String) : Prop := leL a.toList b.toList = true

instance : DecidableRel strLe := fun a b => by
  unfold strLe; infer_instance

/-- Python truthiness of an `Optional[str]`: `None` and `""` are falsy.
Mirrors the `if search_term:` / `if label:` / `if label_detail:` guards in
`src/database.py`. -/
def pyTruthy : Option String → Bool
  | none => false
  | some s => !s.toList.isEmpty

/-! ### Data model of the image-predictions table -/

/-- A row of the image-predictions table: `path` text, `label` and
`"labelDetail"` nullable text, `score` nullable numeric (modelled as `ℚ`;
only order comparisons are performed on scores). -/
structure ImageRow where
  path : String
  label : Option String
  labelDetail : Option String
  score : Option ℚ
deriving DecidableEq, Repr

/-- The table contents. -/
abbrev Table := List ImageRow

/-- The full filter set accepted by `DatabaseManager.get_image_paths` and
`get_total_image_count` in `src/database.py`. -/
structure Filters where
  searchTerm : Option String
  label : Option String
  labelDetail : Option String
  minScore : Option ℚ
  maxScore : Option ℚ
deriving DecidableEq, Repr

/-- The SQL predicate `path ILIKE '%term%'`: case-insensitive substring
match (for wildcard-free terms, the only kind this model covers). -/
def ilikeAnywhere (term path : String) : Bool :=
  containsSub (lowerL term.toList) (lowerL path.toList)

/-- The four WHERE conditions shared by `get_image_paths` and
`get_all_image_paths`: `label = %s`, `"labelDetail" = %s`, `score >= %s`,
`score <= %s`, each contributed only when the argument is truthy
(strings) resp. not `None` (scores); an SQL `NULL` score fails both
score comparisons. -/
def matchesBase (label labelDetail : Option String)
    (minScore maxScore : Option ℚ) (r : ImageRow) : Bool :=
  (if pyTruthy label then r.label == label else true) &&
  (if pyTruthy labelDetail then r.labelDetail == labelDetail else true) &&
  (match minScore with
   | some v => match r.score with
     | some s => decide (v ≤ s)
     | none => false
   | none => true) &&
  (match maxScore with
   | some v => match r.score with
     | some s => decide (s ≤ v)
     | none => false
   | none => true)

/-- The full WHERE clause of `get_image_paths` / `get_total_image_count`:
the base conditions plus `path ILIKE %s` when `search_term` is truthy. -/
def matchesFilters (f : Filters) (r : ImageRow) : Bool :=
  (if pyTruthy f.searchTerm then ilikeAnywhere (f.searchTerm.getD "") r.path
   else true) &&
  matchesBase f.label f.labelDetail f.minScore f.maxScore r

/-- The `ORDER BY path` sort on the projected path column. -/
def sortPaths (xs : List String) : List String := List.insertionSort strLe xs

/-- Model of `DatabaseManager.get_image_paths` (`src/database.py` lines 140–191):
filter, project `path`, `ORDER BY path`, then `LIMIT limit OFFSET offset`. -/
def get_image_paths (t : Table) (f : Filters) (limit offst : Nat) :
    List String :=
  ((sortPaths ((t.filter (matchesFilters f)).map ImageRow.path)).drop
    offst).take limit

/-- Model of `DatabaseManager.get_all_image_paths` (`src/database.py` lines 193–239):
same base filters but no `search_term` parameter, no LIMIT/OFFSET. -/
def get_all_image_paths (t : Table) (label labelDetail : Option String)
    (minScore maxScore : Option ℚ) : List String :=
  sortPaths ((t.filter (matchesBase label labelDetail minScore maxScore)).map
    ImageRow.path)

/-- Model of `DatabaseManager.get_distinct_labels` (`src/database.py` lines 241–257):
`SELECT DISTINCT label … WHERE label IS NOT NULL ORDER BY label`. -/
def get_distinct_labels (t : Table) : List String :=
  List.insertionSort strLe (t.filterMap ImageRow.label).dedup

/-- The non-null `"labelDetail"` values of the rows matched by
`get_distinct_label_details`: `WHERE "labelDetail" IS NOT NULL
[AND label = %s]`, the equality condition added only when the argument is
truthy (`if label:`). -/
def labelDetailValues (t : Table) (label : Option String) : List String :=
  if pyTruthy label then
    (t.filter (fun r => r.label == label)).filterMap ImageRow.labelDetail
  else
    t.filterMap ImageRow.labelDetail

/-- Model of `DatabaseManager.get_distinct_label_details` (`src/database.py`
lines 259–284): `SELECT DISTINCT "labelDetail" … ORDER BY "labelDetail"` over
the matched rows. -/
def get_distinct_label_details (t : Table) (label : Option String) :
    List String :=
  List.insertionSort strLe (labelDetailValues t label).dedup

/-- Minimum of a rational list (`SELECT MIN(score)` over the non-null
scores); `none` on the empty list (SQL `NULL`). -/
def minQ : List ℚ → Option ℚ
  | [] => none
  | a :: as =>
    match minQ as with
    | none => some a
    | some m => some (min a m)

/-- Maximum of a rational list (`SELECT MAX(score)`). -/
def maxQ : List ℚ → Option ℚ
  | [] => none
  | a :: as =>
    match maxQ as with
    | none => some a
    | some m => some (max a m)

/-- Model of `DatabaseManager.get_score_range` (`src/database.py` lines 286–305):
`SELECT MIN(score), MAX(score) … WHERE score IS NOT NULL`, with the default
`(0.0, 1.0)` when either aggregate comes back `NULL`. -/
def get_score_range (t : Table) : ℚ × ℚ :=
  match minQ (t.filterMap ImageRow.score), maxQ (t.filterMap ImageRow.score) with
  | some a, some b => (a, b)
  | _, _ => (0, 1)

/-- Model of `DatabaseManager.get_total_image_count` (`src/database.py` lines
307–355): `SELECT COUNT(*)` under the same WHERE clause as
`get_image_paths`. -/
def get_total_image_count (t : Table) (f : Filters) : Nat :=
  (t.filter (matchesFilters f)).length

/-! ### Schema resolution (`find_table_schema` / `check_table_exists`) -/

/-- The `(table_schema, table_name)` rows of `information_schema.tables`. -/
abbrev Catalog := List (String × String)

/-- The schemas containing `table` (`WHERE table_name = %s`). -/
def schemasOf (cat : Catalog) (table : String) : List String :=
  (cat.filter (fun p => p.2 == table)).map Prod.fst

/-- Model of `DatabaseManager.find_table_schema` (`src/database.py` lines 83–99):
`SELECT table_schema … WHERE table_name = %s ORDER BY table_schema LIMIT 1`. -/
def find_table_schema (cat : Catalog) (table : String) : Option String :=
  (List.insertionSort strLe (schemasOf cat table)).head?

/-- Result of `check_table_exists`: the returned Boolean, the value of
`config.DEFAULT_SCHEMA` after the call, and whether the catalog-wide scan
(`find_table_schema`) was executed. -/
structure CheckResult where
  found : Bool
  schema : String
  scanned : Bool
deriving DecidableEq, Repr

/-- Model of `DatabaseManager.check_table_exists` (`src/database.py` lines 101–138)
on a live connection: cheap `EXISTS` probe in the configured schema `cfg`
first; on miss, `find_table_schema`, whose result updates
`config.DEFAULT_SCHEMA` only when truthy (`if found_schema:`). -/
def check_table_exists (cfg : String) (cat : Catalog) (table : String) :
    CheckResult :=
  if (cfg, table) ∈ cat then ⟨true, cfg, false⟩
  else
    match find_table_schema cat table with
    | some s => if s = "" then ⟨false, cfg, true⟩ else ⟨true, s, true⟩
    | none => ⟨false, cfg, true⟩

/-! ### Connection-failure boundary (`src/database.py`)

A database/connection failure while executing a query is modelled by running
each operation against `Except String Table` (resp. `Catalog`): `.error e`
stands for the connection (or the query) raising an exception with message
`e`. An operation that catches at its boundary maps `.error` to an ordinary
return value; one that does not propagates `.error` to its caller. -/

/-- Operation `get_image_paths` has no `try/except`: a raised error propagates. -/
def get_image_paths_conn (db : Except String Table) (f : Filters)
    (limit offst : Nat) : Except String (List String) :=
  match db with
  | .error e => .error e
  | .ok t => .ok (get_image_paths t f limit offst)

/-- Operation `get_all_image_paths` has no `try/except`: a raised error propagates. -/
def get_all_image_paths_conn (db : Except String Table)
    (label labelDetail : Option String) (minScore maxScore : Option ℚ) :
    Except String (List String) :=
  match db with
  | .error e => .error e
  | .ok t => .ok (get_all_image_paths t label labelDetail minScore maxScore)

/-- Operation `get_distinct_labels` has no `try/except`: a raised error propagates. -/
def get_distinct_labels_conn (db : Except String Table) :
    Except String (List String) :=
  match db with
  | .error e => .error e
  | .ok t => .ok (get_distinct_labels t)

/-- Operation `get_distinct_label_details` has no `try/except`: a raised error
propagates. -/
def get_distinct_label_details_conn (db : Except String Table)
    (label : Option String) : Except String (List String) :=
  match db with
  | .error e => .error e
  | .ok t => .ok (get_distinct_label_details t label)

/-- Operation `get_score_range` has no `try/except`: a raised error propagates. -/
def get_score_range_conn (db : Except String Table) :
    Except String (ℚ × ℚ) :=
  match db with
  | .error e => .error e
  | .ok t => .ok (get_score_range t)

/-- Operation `get_total_image_count` has no `try/except`: a raised error propagates. -/
def get_total_image_count_conn (db : Except String Table) (f : Filters) :
    Except String Nat :=
  match db with
  | .error e => .error e
  | .ok t => .ok (get_total_image_count t f)

/-- Operation `find_table_schema` catches every exception and returns `None`. -/
def find_table_schema_conn (db : Except String Catalog) (table : String) :
    Option String :=
  match db with
  | .error _ => none
  | .ok cat => find_table_schema cat table

/-- Operation `check_table_exists` catches every exception, emits `st.error`, and
returns `False` with `config.DEFAULT_SCHEMA` untouched. -/
def check_table_exists_conn (db : Except String Catalog) (cfg table : String) :
    CheckResult :=
  match db with
  | .error _ => ⟨false, cfg, false⟩
  | .ok cat => check_table_exists cfg cat table

/-! ### OAuth token / connection-pool state machine -/

/-- The mutable fields of `DatabaseManager`: `postgres_password`,
`last_password_refresh`, and `connection_pool` (recorded as the password
embedded in the pool's connection string, or `none` when no pool exists). -/
structure DbState where
  password : Option String
  lastRefresh : Nat
  pool : Option String
deriving DecidableEq, Repr

/-- The staleness test shared by `refresh_oauth_token` and `get_connection`:
`postgres_password is None or time.time() - last_password_refresh >
TOKEN_REFRESH_INTERVAL`. -/
def tokenExpired (now : Nat) (s : DbState) : Bool :=
  s.password.isNone || decide (now - s.lastRefresh > TOKEN_REFRESH_INTERVAL)

/-- Model of `DatabaseManager.refresh_oauth_token` (`src/database.py` lines 34–45),
with `fetch` the identity provider (assumed reachable) and the returned `Nat`
counting token fetches performed. -/
def refresh_oauth_token (fetch : Nat → String) (now : Nat) (s : DbState) :
    DbState × Nat :=
  if tokenExpired now s then
    ({ s with password := some (fetch now), lastRefresh := now }, 1)
  else (s, 0)

/-- Model of `DatabaseManager.get_connection_pool` (`src/database.py` lines 47–70):
lazily builds the pool from a fresh token; returns (state, fetches,
pools built). -/
def get_connection_pool (fetch : Nat → String) (now : Nat) (s : DbState) :
    DbState × Nat × Nat :=
  match s.pool with
  | some _ => (s, 0, 0)
  | none =>
    let p := refresh_oauth_token fetch now s
    ({ p.1 with pool := some (p.1.password.getD "") }, p.2, 1)

/-- Result of one `get_connection` call: the new manager state and how many
token fetches, pool teardowns and pool builds the call performed. -/
structure AcquireResult where
  state : DbState
  refreshes : Nat
  teardowns : Nat
  rebuilds : Nat
deriving DecidableEq, Repr

/-- Model of `DatabaseManager.get_connection` (`src/database.py` lines 72–81): closes
the pool when the token is stale, then delegates to `get_connection_pool`. -/
def get_connection (fetch : Nat → String) (now : Nat) (s : DbState) :
    AcquireResult :=
  let closed :=
    if tokenExpired now s then
      match s.pool with
      | some _ => ({ s with pool := none }, 1)
      | none => (s, 0)
    else (s, 0)
  let built := get_connection_pool fetch now closed.1
  ⟨built.1, built.2.1, closed.2, built.2.2⟩

/-! ### Image fetcher (`src/image_service.py`) -/

/-- The recognized image extensions in `load_image_from_volume`. -/
def IMAGE_EXTS : List String := [".jpg", ".jpeg", ".png", ".gif", ".webp", ".bmp"]

/-- The path-normalization dispatch of
`ImageService.load_image_from_volume` (`src/image_service.py` lines 37–70),
applied to the stripped path string; `none` means the path shape is rejected
without attempting a download. -/
def normalize_volume_path (s : String) : Option String :=
  let cs := s.toList
  if startsWithL "dbfs:/Volumes/".toList cs then
    some (String.mk (replaceAllL "dbfs:".toList [] cs))
  else if startsWithL "/Volumes/".toList cs then
    some s
  else if isDigitL cs then
    none
  else if !cs.contains '/' then
    if cs.contains '.' &&
        IMAGE_EXTS.any (fun e => endsWithL e.toList (lowerL cs)) then
      some (VOLUME_BASE_PATH ++ "/" ++ s)
    else none
  else if startsWithL ['/'] cs then
    if !containsSub "/Volumes/".toList cs then none
    else
      match findSub "/Volumes/".toList cs with
      | some i => some (String.mk (cs.drop i))
      | none => none
  else none

/-- Python `str(file_path).strip()`. -/
def stripPy (s : String) : String := String.mk (trimL s.toList)

/-- Model of `ImageService.load_image_from_volume` (`src/image_service.py` lines
23–102). `download` models `workspace_client.files.download` plus the byte
read (`.error` = transport error / not found), `decode` models `Image.open`
(`.error` = the bytes are not a valid image); the surrounding
`try/except Exception` turns every failure into `None`. The argument is
`Option String`, `none` standing for Python `None` (falsy, like `""`). -/
def load_image_from_volume {α : Type} (download : String → Except String (List Nat))
    (decode : List Nat → Except String α) (file_path : Option String) :
    Option α :=
  match file_path with
  | none => none
  | some s =>
    if s.toList.isEmpty then none
    else
      match normalize_volume_path (stripPy s) with
      | none => none
      | some np =>
        match download np with
        | .error _ => none
        | .ok bs =>
          match decode bs with
          | .error _ => none
          | .ok img => some img

/-- Concatenation of the pages `f 0, f 1, …, f (k-1)` in order (the
"concatenating across increasing offsets" of the pagination claim). -/
def concatPages {α : Type} (f : Nat → List α) : Nat → List α
  | 0 => []
  | k + 1 => concatPages f k ++ f k

/-! ### Statements of the claims that fail on the code, as stated -/

/-- Claim C1 exactly as stated: for ANY filter set of the paginated
operation (search term included), concatenating pages of `get_image_paths`
reproduces `get_all_image_paths` on the filters the latter receives (it has
no search-term parameter to pass). -/
def C1Claim : Prop :=
  ∀ (t : Table) (f : Filters) (L k : Nat),
    (get_all_image_paths t f.label f.labelDetail f.minScore f.maxScore).length ≤ k * L →
    concatPages (fun i => get_image_paths t f L (i * L)) k =
      get_all_image_paths t f.label f.labelDetail f.minScore f.maxScore

/-- Claim C2's description of the `dbfs:` case exactly as stated: a path
starting with `dbfs:/Volumes/` normalizes to the suffix after the 5-character
`dbfs:` marker. -/
def C2Claim : Prop :=
  ∀ s : String, startsWithL "dbfs:/Volumes/".toList s.toList = true →
    normalize_volume_path s = some (String.mk (s.toList.drop 5))

/-- Claim C5 exactly as stated: every one of the six public query operations
converts a connection/query error into an ordinary (non-raising) result. -/
def C5Claim : Prop :=
  ∀ (e : String) (f : Filters) (label labelDetail : Option String)
    (minScore maxScore : Option ℚ) (limit offst : Nat),
    (∃ v, get_image_paths_conn (.error e) f limit offst = .ok v) ∧
    (∃ v, get_all_image_paths_conn (.error e) label labelDetail minScore
      maxScore = .ok v) ∧
    (∃ v, get_distinct_labels_conn (.error e) = .ok v) ∧
    (∃ v, get_distinct_label_details_conn (.error e) label = .ok v) ∧
    (∃ v, get_score_range_conn (.error e) = .ok v) ∧
    (∃ v, get_total_image_count_conn (.error e) f = .ok v)

/-- Claim C7 exactly as stated: for EVERY label X (the empty string
included), the filtered distinct label-details are a subset of the unfiltered
ones and each returned element co-occurs with X in some row. -/
def C7Claim : Prop :=
  ∀ (X : String) (t : Table),
    (∀ d ∈ get_distinct_label_details t (some X),
      d ∈ get_distinct_label_details t none) ∧
    (∀ d ∈ get_distinct_label_details t (some X),
      ∃ r, r ∈ t ∧ r.label = some X ∧ r.labelDetail = some d)

/-! ### Order lemmas for the lexicographic path order -/

theorem leL_refl (a : List Char) : leL a a = true := by
  induction a with
  | nil => rfl
  | cons c cs ih => simp [leL, ih]

theorem strLe_refl (a : String) : strLe a a := leL_refl _

theorem leL_total (a b : List Char) : leL a b = true ∨ leL b a = true := by
  induction a generalizing b with
  | nil => exact Or.inl rfl
  | cons c cs ih =>
    cases b with
    | nil => exact Or.inr rfl
    | cons d ds =>
      by_cases h : c.toNat = d.toNat
      · simp only [leL, if_pos h, if_pos h.symm]
        exact ih ds
      · simp only [leL, if_neg h, if_neg (Ne.symm h), decide_eq_true_eq]
        omega

theorem leL_trans {a b c : List Char} (h1 : leL a b = true)
    (h2 : leL b c = true) : leL a c = true := by
  induction a generalizing b c with
  | nil => rfl
  | cons x xs ih =>
    cases b with
    | nil => simp [leL] at h1
    | cons y ys =>
      cases c with
      | nil => simp [leL] at h2
      | cons z zs =>
        simp only [leL] at h1 h2 ⊢
        by_cases hxy : x.toNat = y.toNat <;> by_cases hyz : y.toNat = z.toNat
        · rw [if_pos hxy] at h1
          rw [if_pos hyz] at h2
          rw [if_pos (hxy.trans hyz)]
          exact ih h1 h2
        · rw [if_pos hxy] at h1
          rw [if_neg hyz, decide_eq_true_eq] at h2
          rw [if_neg (by omega), decide_eq_true_eq]
          omega
        · rw [if_neg hxy, decide_eq_true_eq] at h1
          rw [if_pos hyz] at h2
          rw [if_neg (by omega), decide_eq_true_eq]
          omega
        · rw [if_neg hxy, decide_eq_true_eq] at h1
          rw [if_neg hyz, decide_eq_true_eq] at h2
          rw [if_neg (by omega), decide_eq_true_eq]
          omega

instance : IsTotal String strLe := ⟨fun a b => leL_total a.toList b.toList⟩

instance : IsTrans String strLe := ⟨fun _ _ _ => leL_trans⟩

/-- The head of a `strLe`-sorted list is a lower bound for the list. -/
theorem head?_sorted_le {l : List String} (hs : l.Sorted strLe) {a : String}
    (ha : l.head? = some a) : ∀ b ∈ l, strLe a b := by
  cases l with
  | nil => simp at ha
  | cons x xs =>
    simp only [List.head?_cons, Option.some.injEq] at ha
    subst ha
    intro b hb
    rcases List.mem_cons.1 hb with rfl | hb
    · exact strLe_refl _
    · exact List.rel_of_sorted_cons hs b hb

/-! ### Chunking lemmas for pagination -/

theorem take_append_drop_take {α : Type} (m n : Nat) (xs : List α) :
    xs.take m ++ (xs.drop m).take n = xs.take (m + n) := by
  induction m generalizing xs with
  | zero => simp
  | succ m ih =>
    cases xs with
    | nil => simp
    | cons x t => simpa [List.take_succ_cons, List.drop_succ_cons,
        Nat.succ_add] using ih t

theorem concatPages_take {α : Type} (xs : List α) (L : Nat) (k : Nat) :
    concatPages (fun i => (xs.drop (i * L)).take L) k = xs.take (k * L) := by
  induction k with
  | zero => simp [concatPages]
  | succ k ih =>
    simp only [concatPages, ih, Nat.succ_mul]
    exact take_append_drop_take _ _ _

/-! ### Aggregate lemmas -/

theorem minQ_eq_none {l : List ℚ} : minQ l = none ↔ l = [] := by
  cases l with
  | nil => simp [minQ]
  | cons a as =>
    simp only [minQ]
    cases minQ as <;> simp

theorem minQ_spec {l : List ℚ} {q : ℚ} (h : minQ l = some q) :
    q ∈ l ∧ ∀ x ∈ l, q ≤ x := by
  induction l generalizing q with
  | nil => simp [minQ] at h
  | cons a as ih =>
    simp only [minQ] at h
    cases hm : minQ as with
    | none =>
      rw [hm] at h
      have hq : q = a := by simpa using h.symm
      subst hq
      have hnil : as = [] := minQ_eq_none.1 hm
      subst hnil
      simp
    | some m =>
      rw [hm] at h
      have hq : q = min a m := by simpa using h.symm
      subst hq
      obtain ⟨hmem, hle⟩ := ih hm
      constructor
      · rcases le_total a m with hc | hc
        · simp [min_eq_left hc]
        · rw [min_eq_right hc]
          exact List.mem_cons_of_mem _ hmem
      · intro x hx
        rcases List.mem_cons.1 hx with rfl | hx
        · exact min_le_left _ _
        · exact le_trans (min_le_right _ _) (hle x hx)

theorem maxQ_eq_none {l : List ℚ} : maxQ l = none ↔ l = [] := by
  cases l with
  | nil => simp [maxQ]
  | cons a as =>
    simp only [maxQ]
    cases maxQ as <;> simp

theorem maxQ_spec {l : List ℚ} {q : ℚ} (h : maxQ l = some q) :
    q ∈ l ∧ ∀ x ∈ l, x ≤ q := by
  induction l generalizing q with
  | nil => simp [maxQ] at h
  | cons a as ih =>
    simp only [maxQ] at h
    cases hm : maxQ as with
    | none =>
      rw [hm] at h
      have hq : q = a := by simpa using h.symm
      subst hq
      have hnil : as = [] := maxQ_eq_none.1 hm
      subst hnil
      simp
    | some m =>
      rw [hm] at h
      have hq : q = max a m := by simpa using h.symm
      subst hq
      obtain ⟨hmem, hle⟩ := ih hm
      constructor
      · rcases le_total a m with hc | hc
        · rw [max_eq_right hc]
          exact List.mem_cons_of_mem _ hmem
        · simp [max_eq_left hc]
      · intro x hx
        rcases List.mem_cons.1 hx with rfl | hx
        · exact le_max_left _ _
        · exact le_trans (hle x hx) (le_max_right _ _)

/-! ### Catalog membership -/

theorem mem_schemasOf {cat : Catalog} {table s : String} :
    s ∈ schemasOf cat table ↔ (s, table) ∈ cat := by
  simp only [schemasOf, List.mem_map, List.mem_filter, beq_iff_eq]
  constructor
  · rintro ⟨⟨a, b⟩, ⟨hp, hb⟩, hfst⟩
    simp only at hfst hb
    subst hfst
    subst hb
    exact hp
  · intro h
    exact ⟨(s, table), ⟨h, rfl⟩, rfl⟩

/-! ### Prefix, membership and digit lemmas for path normalization -/

theorem ne_true_of_false {b : Bool} (h : b = false) : ¬ b = true := by
  intro ht
  rw [h] at ht
  exact Bool.noConfusion ht

theorem bnot_true_of_false {b : Bool} (h : b = false) : (!b) = true := by
  rw [h]
  rfl

theorem bnot_ne_true_of_true {b : Bool} (h : b = true) : ¬ (!b) = true := by
  intro ht
  rw [h] at ht
  exact Bool.noConfusion ht

theorem startsWithL_head_eq {n h : Char} {ns t : List Char}
    (h1 : startsWithL (n :: ns) (h :: t) = true) : n = h := by
  simp only [startsWithL, Bool.and_eq_true, beq_iff_eq] at h1
  exact h1.1

theorem startsWithL_mem {ns cs : List Char} (h : startsWithL ns cs = true) :
    ∀ c ∈ ns, c ∈ cs := by
  induction ns generalizing cs with
  | nil =>
    intro c hc
    simp at hc
  | cons n nt ih =>
    cases cs with
    | nil => simp [startsWithL] at h
    | cons x xs =>
      simp only [startsWithL, Bool.and_eq_true, beq_iff_eq] at h
      intro c hc
      rcases List.mem_cons.1 hc with rfl | hc
      · rw [h.1]
        exact List.mem_cons_self x xs
      · exact List.mem_cons_of_mem _ (ih h.2 c hc)

theorem startsWithL_containsSub {ns cs : List Char}
    (h : startsWithL ns cs = true) : containsSub ns cs = true := by
  cases cs with
  | nil => simp [containsSub, findSub, h]
  | cons x xs => simp [containsSub, findSub, h]

theorem not_startsWithL_of_head_ne {n x : Char} {ns xs : List Char}
    (h : n ≠ x) : startsWithL (n :: ns) (x :: xs) = false := by
  simp [startsWithL, h]

theorem startsWithL_false_of_not_mem {ns cs : List Char} {c : Char}
    (hc : c ∈ ns) (hm : c ∉ cs) : startsWithL ns cs = false := by
  cases hsw : startsWithL ns cs with
  | false => rfl
  | true => exact absurd (startsWithL_mem hsw c hc) hm

theorem startsWith_slash_shape (cs : List Char)
    (h : startsWithL ['/'] cs = true) : ∃ t, cs = '/' :: t := by
  cases cs with
  | nil => simp [startsWithL] at h
  | cons x xs =>
    refine ⟨xs, ?_⟩
    rw [← startsWithL_head_eq h]

theorem mem_of_containsC {cs : List Char} {c : Char}
    (h : cs.contains c = true) : c ∈ cs :=
  List.elem_iff.1 h

theorem containsC_of_mem {cs : List Char} {c : Char} (h : c ∈ cs) :
    cs.contains c = true :=
  List.elem_iff.2 h

theorem not_mem_of_containsC_false {cs : List Char} {c : Char}
    (h : cs.contains c = false) : c ∉ cs := fun hm => by
  rw [containsC_of_mem hm] at h
  exact Bool.noConfusion h

theorem isDigitL_false_of_mem {cs : List Char} {c : Char} (hm : c ∈ cs)
    (hc : c.isDigit = false) : isDigitL cs = false := by
  unfold isDigitL
  cases hall : cs.all Char.isDigit with
  | false => simp
  | true =>
    exfalso
    have hd := List.all_eq_true.1 hall c hm
    rw [hc] at hd
    exact Bool.false_ne_true hd

theorem startsWithL_false_of_all_digits {ns cs : List Char} {c : Char}
    (hc : c ∈ ns) (hcd : c.isDigit = false)
    (hall : cs.all Char.isDigit = true) : startsWithL ns cs = false := by
  cases hsw : startsWithL ns cs with
  | false => rfl
  | true =>
    exfalso
    have hm := startsWithL_mem hsw c hc
    have hd := List.all_eq_true.1 hall c hm
    rw [hcd] at hd
    exact Bool.false_ne_true hd

/-! ### Truthiness and distinct-value membership -/

theorem pyTruthy_some_of_ne {s : String} (h : s ≠ "") :
    pyTruthy (some s) = true := by
  obtain ⟨data⟩ := s
  cases data with
  | nil => exact absurd rfl h
  | cons c cs => simp [pyTruthy, String.toList]

theorem mem_gdld {t : Table} {lab : Option String} {d : String} :
    d ∈ get_distinct_label_details t lab ↔ d ∈ labelDetailValues t lab := by
  unfold get_distinct_label_details
  rw [List.mem_insertionSort]
  exact List.mem_dedup

/-! ### Claim theorems -/

/-- Claim C4 (confirmed): `get_score_range` returns the minimum and maximum
of the non-null scores, and exactly (0.0, 1.0) when there are none; it is
total on any table contents, so it never fails on empty data. -/
theorem C4_score_range (t : Table) :
    (t.filterMap ImageRow.score = [] → get_score_range t = (0, 1)) ∧
    (t.filterMap ImageRow.score ≠ [] →
      (get_score_range t).1 ∈ t.filterMap ImageRow.score ∧
      (get_score_range t).2 ∈ t.filterMap ImageRow.score ∧
      ∀ q ∈ t.filterMap ImageRow.score,
        (get_score_range t).1 ≤ q ∧ q ≤ (get_score_range t).2) := by
  constructor
  · intro h
    simp [get_score_range, h, minQ]
  · intro h
    obtain ⟨m, hm⟩ : ∃ m, minQ (t.filterMap ImageRow.score) = some m := by
      cases hmm : minQ (t.filterMap ImageRow.score) with
      | none => exact absurd (minQ_eq_none.1 hmm) h
      | some m => exact ⟨m, rfl⟩
    obtain ⟨M, hM⟩ : ∃ M, maxQ (t.filterMap ImageRow.score) = some M := by
      cases hmm : maxQ (t.filterMap ImageRow.score) with
      | none => exact absurd (maxQ_eq_none.1 hmm) h
      | some M => exact ⟨M, rfl⟩
    obtain ⟨hm1, hm2⟩ := minQ_spec hm
    obtain ⟨hM1, hM2⟩ := maxQ_spec hM
    simp only [get_score_range, hm, hM]
    exact ⟨hm1, hM1, fun q hq => ⟨hm2 q hq, hM2 q hq⟩⟩

/-- Witness for C4 at an empty table and at a table with two scored rows. -/
theorem C4_score_range_witness :
    get_score_range [] = (0, 1) ∧
    (get_score_range [⟨"a", none, none, some 2⟩, ⟨"b", none, none, some 1⟩]).1 ∈
      ([⟨"a", none, none, some 2⟩, ⟨"b", none, none, some 1⟩] : Table).filterMap
        ImageRow.score :=
  ⟨(C4_score_range []).1 rfl,
   ((C4_score_range [⟨"a", none, none, some 2⟩, ⟨"b", none, none, some 1⟩]).2
     (by decide)).1⟩

/-- Claim C8 (confirmed): when the target table is found in no schema at
all, `check_table_exists` returns false and leaves the shared schema state
unchanged (after having run the catalog-wide scan). -/
theorem C8_not_found_state_unchanged (cfg table : String) (cat : Catalog)
    (h : schemasOf cat table = []) :
    check_table_exists cfg cat table = ⟨false, cfg, true⟩ := by
  have hmem : (cfg, table) ∉ cat := fun hc => by
    have hin : cfg ∈ schemasOf cat table := mem_schemasOf.2 hc
    rw [h] at hin
    exact absurd hin (List.not_mem_nil _)
  have hf : find_table_schema cat table = none := by
    simp [find_table_schema, h, List.insertionSort]
  simp [check_table_exists, hmem, hf]

/-- Witness for C8 at a concrete catalog not containing the target table. -/
theorem C8_not_found_state_unchanged_witness :
    check_table_exists "example" [("public", "other_table")]
      "image_predictions" = ⟨false, "example", true⟩ :=
  C8_not_found_state_unchanged "example" "image_predictions"
    [("public", "other_table")] (by decide)

/-- Claim C6 (confirmed): a token fetched at time T with a pool built under
it is reused by every acquisition at or before T+900 (no refresh, no
teardown, no rebuild, state unchanged); an acquisition strictly after T+900
performs exactly one token refresh, one pool teardown and one pool rebuild,
the new pool being bound to the freshly fetched token. -/
theorem C6_refresh_boundary (fetch : Nat → String) (tok pl : String)
    (T now : Nat) :
    (now ≤ T + TOKEN_REFRESH_INTERVAL →
      get_connection fetch now ⟨some tok, T, some pl⟩ =
        ⟨⟨some tok, T, some pl⟩, 0, 0, 0⟩) ∧
    (T + TOKEN_REFRESH_INTERVAL < now →
      get_connection fetch now ⟨some tok, T, some pl⟩ =
        ⟨⟨some (fetch now), now, some (fetch now)⟩, 1, 1, 1⟩) := by
  constructor
  · intro h
    have hb : ¬ (900 : Nat) < now - T := by
      simp only [TOKEN_REFRESH_INTERVAL] at h
      omega
    have hexp : tokenExpired now ⟨some tok, T, some pl⟩ = false := by
      simp [tokenExpired, TOKEN_REFRESH_INTERVAL, hb]
    simp [get_connection, hexp, get_connection_pool]
  · intro h
    have hb : (900 : Nat) < now - T := by
      simp only [TOKEN_REFRESH_INTERVAL] at h
      omega
    have hexp : ∀ p : Option String, tokenExpired now ⟨some tok, T, p⟩ = true := by
      intro p
      simp [tokenExpired, TOKEN_REFRESH_INTERVAL, hb]
    simp [get_connection, hexp, get_connection_pool, refresh_oauth_token]

/-- Witness for C6 at the 900/901-second boundary. -/
theorem C6_refresh_boundary_witness :
    get_connection (fun _ => "tok2") 900 ⟨some "tok1", 0, some "tok1"⟩ =
      ⟨⟨some "tok1", 0, some "tok1"⟩, 0, 0, 0⟩ ∧
    get_connection (fun _ => "tok2") 901 ⟨some "tok1", 0, some "tok1"⟩ =
      ⟨⟨some "tok2", 901, some "tok2"⟩, 1, 1, 1⟩ :=
  ⟨(C6_refresh_boundary (fun _ => "tok2") "tok1" "tok1" 0 900).1 (by decide),
   (C6_refresh_boundary (fun _ => "tok2") "tok1" "tok1" 0 901).2 (by decide)⟩

/-- Counterexample to claim C5 as stated: `get_image_paths` has no
`try/except`, so a connection error is not converted into an ordinary
result. -/
theorem C5_counterexample : ¬ C5Claim := by
  intro h
  obtain ⟨⟨v, hv⟩, -⟩ :=
    h "connection refused" ⟨none, none, none, none, none⟩ none none none none 1 0
  simp [get_image_paths_conn] at hv

/-- Claim C5 as amended: a connection/query error propagates unhandled out
of each of the six public query operations; only `check_table_exists` and
`find_table_schema` catch at their boundary and convert the failure into an
ordinary return value. -/
theorem C5_error_propagation (e : String) (f : Filters)
    (label labelDetail : Option String) (minScore maxScore : Option ℚ)
    (limit offst : Nat) (cfg table : String) :
    get_image_paths_conn (.error e) f limit offst = .error e ∧
    get_all_image_paths_conn (.error e) label labelDetail minScore maxScore =
      .error e ∧
    get_distinct_labels_conn (.error e) = .error e ∧
    get_distinct_label_details_conn (.error e) label = .error e ∧
    get_score_range_conn (.error e) = .error e ∧
    get_total_image_count_conn (.error e) f = .error e ∧
    check_table_exists_conn (.error e) cfg table = ⟨false, cfg, false⟩ ∧
    find_table_schema_conn (.error e) table = none :=
  ⟨rfl, rfl, rfl, rfl, rfl, rfl, rfl, rfl⟩

/-- Counterexample to claim C1 as stated: with a search term set, the
paginated operation filters by it but the unbounded operation has no
search-term parameter at all, so the concatenated pages miss rows. -/
theorem C1_counterexample : ¬ C1Claim := by
  intro h
  have hc := h [⟨"ab", none, none, none⟩] ⟨some "z", none, none, none, none⟩ 1 1
    (by decide)
  revert hc
  decide

/-- Claim C1 as amended: for the filters the unbounded operation accepts
(label, label detail, score range — no search term), concatenating the pages
of `get_image_paths` of size L across offsets 0, L, 2L, … reproduces
`get_all_image_paths` exactly, with no duplicates or omissions, as soon as
the pages cover the full result length. -/
theorem C1_pagination (t : Table) (label labelDetail : Option String)
    (minScore maxScore : Option ℚ) (L k : Nat)
    (hcov : (get_all_image_paths t label labelDetail minScore maxScore).length ≤
      k * L) :
    concatPages
      (fun i => get_image_paths t ⟨none, label, labelDetail, minScore, maxScore⟩
        L (i * L)) k =
      get_all_image_paths t label labelDetail minScore maxScore := by
  have hfe : t.filter (matchesFilters ⟨none, label, labelDetail, minScore, maxScore⟩) =
      t.filter (matchesBase label labelDetail minScore maxScore) := by
    apply List.filter_congr
    intro r _
    simp [matchesFilters, pyTruthy]
  have hfun : (fun i => get_image_paths t
        ⟨none, label, labelDetail, minScore, maxScore⟩ L (i * L)) =
      (fun i => ((get_all_image_paths t label labelDetail minScore maxScore).drop
        (i * L)).take L) := by
    funext i
    simp [get_image_paths, get_all_image_paths, hfe]
  rw [hfun, concatPages_take, List.take_of_length_le hcov]

/-- Witness for the amended C1 at a concrete two-row table, page size 1. -/
theorem C1_pagination_witness :
    concatPages
      (fun i => get_image_paths [⟨"a", none, none, none⟩, ⟨"b", none, none, none⟩]
        ⟨none, none, none, none, none⟩ 1 (i * 1)) 2 =
      get_all_image_paths [⟨"a", none, none, none⟩, ⟨"b", none, none, none⟩]
        none none none none :=
  C1_pagination [⟨"a", none, none, none⟩, ⟨"b", none, none, none⟩] none none
    none none 1 2 (by decide)

/-- Claim C9 (confirmed): passing "" for search_term, label or label_detail
is identical to passing None (the predicate is omitted: Python truthiness
test), while passing 0.0 for min_score or max_score does add the score
predicate (is-not-None test), observably changing the result on a table
whose row has a NULL score. -/
theorem C9_truthiness_vs_none :
    (∀ (t : Table) (f : Filters) (limit offst : Nat),
      get_image_paths t { f with searchTerm := some "" } limit offst =
        get_image_paths t { f with searchTerm := none } limit offst) ∧
    (∀ (t : Table) (f : Filters) (limit offst : Nat),
      get_image_paths t { f with label := some "" } limit offst =
        get_image_paths t { f with label := none } limit offst) ∧
    (∀ (t : Table) (f : Filters) (limit offst : Nat),
      get_image_paths t { f with labelDetail := some "" } limit offst =
        get_image_paths t { f with labelDetail := none } limit offst) ∧
    (∀ (t : Table) (labelDetail : Option String) (mn mx : Option ℚ),
      get_all_image_paths t (some "") labelDetail mn mx =
        get_all_image_paths t none labelDetail mn mx) ∧
    (∀ (t : Table) (label : Option String) (mn mx : Option ℚ),
      get_all_image_paths t label (some "") mn mx =
        get_all_image_paths t label none mn mx) ∧
    (∀ t : Table, get_distinct_label_details t (some "") =
      get_distinct_label_details t none) ∧
    (∀ (t : Table) (f : Filters),
      get_total_image_count t { f with searchTerm := some "" } =
        get_total_image_count t { f with searchTerm := none }) ∧
    (∀ (t : Table) (f : Filters),
      get_total_image_count t { f with label := some "" } =
        get_total_image_count t { f with label := none }) ∧
    (∀ (t : Table) (f : Filters),
      get_total_image_count t { f with labelDetail := some "" } =
        get_total_image_count t { f with labelDetail := none }) ∧
    get_image_paths [⟨"a", none, none, none⟩] ⟨none, none, none, some 0, none⟩
        50 0 ≠
      get_image_paths [⟨"a", none, none, none⟩] ⟨none, none, none, none, none⟩
        50 0 ∧
    get_total_image_count [⟨"a", none, none, none⟩]
        ⟨none, none, none, none, some 0⟩ ≠
      get_total_image_count [⟨"a", none, none, none⟩]
        ⟨none, none, none, none, none⟩ := by
  have h0 : pyTruthy (some "") = false := by decide
  have hsearch : ∀ f : Filters, matchesFilters { f with searchTerm := some "" } =
      matchesFilters { f with searchTerm := none } := by
    intro f
    funext r
    simp [matchesFilters, h0, pyTruthy]
  have hlabel : ∀ f : Filters, matchesFilters { f with label := some "" } =
      matchesFilters { f with label := none } := by
    intro f
    funext r
    simp [matchesFilters, matchesBase, h0, pyTruthy]
  have hdetail : ∀ f : Filters, matchesFilters { f with labelDetail := some "" } =
      matchesFilters { f with labelDetail := none } := by
    intro f
    funext r
    simp [matchesFilters, matchesBase, h0, pyTruthy]
  refine ⟨?_, ?_, ?_, ?_, ?_, ?_, ?_, ?_, ?_, by decide, by decide⟩
  · intro t f limit offst
    unfold get_image_paths
    rw [hsearch f]
  · intro t f limit offst
    unfold get_image_paths
    rw [hlabel f]
  · intro t f limit offst
    unfold get_image_paths
    rw [hdetail f]
  · intro t labelDetail mn mx
    have hb : matchesBase (some "") labelDetail mn mx =
        matchesBase none labelDetail mn mx := by
      funext r
      simp [matchesBase, h0, pyTruthy]
    unfold get_all_image_paths
    rw [hb]
  · intro t label mn mx
    have hb : matchesBase label (some "") mn mx =
        matchesBase label none mn mx := by
      funext r
      simp [matchesBase, h0, pyTruthy]
    unfold get_all_image_paths
    rw [hb]
  · intro t
    unfold get_distinct_label_details labelDetailValues
    rw [h0]
    simp [pyTruthy]
  · intro t f
    unfold get_total_image_count
    rw [hsearch f]
  · intro t f
    unfold get_total_image_count
    rw [hlabel f]
  · intro t f
    unfold get_total_image_count
    rw [hdetail f]

/-- Claim C3 (confirmed): `check_table_exists` first probes the configured
schema; on a miss it scans all schemas, adopts the lexicographically first
schema containing the table (updating the shared schema state) and returns
true, and an identical second call then succeeds through the cheap probe in
the updated schema without scanning. Schema names in a PostgreSQL catalog
are never empty, which the hypothesis records. -/
theorem C3_schema_resolution (cfg table : String) (cat : Catalog)
    (hne : "" ∉ schemasOf cat table) :
    ((cfg, table) ∈ cat →
      check_table_exists cfg cat table = ⟨true, cfg, false⟩) ∧
    ((cfg, table) ∉ cat → ∀ s₀, (s₀, table) ∈ cat →
      (check_table_exists cfg cat table).found = true ∧
      (check_table_exists cfg cat table).scanned = true ∧
      ((check_table_exists cfg cat table).schema, table) ∈ cat ∧
      (∀ s', (s', table) ∈ cat →
        strLe (check_table_exists cfg cat table).schema s') ∧
      check_table_exists (check_table_exists cfg cat table).schema cat table =
        ⟨true, (check_table_exists cfg cat table).schema, false⟩) := by
  constructor
  · intro h
    simp [check_table_exists, h]
  · intro hmem s₀ hs₀
    have hs₀' : s₀ ∈ schemasOf cat table := mem_schemasOf.2 hs₀
    have hsorted : (List.insertionSort strLe (schemasOf cat table)).Sorted strLe :=
      List.sorted_insertionSort strLe _
    obtain ⟨s, hhead⟩ :
        ∃ s, (List.insertionSort strLe (schemasOf cat table)).head? = some s := by
      cases hl : List.insertionSort strLe (schemasOf cat table) with
      | nil =>
        exfalso
        have hin : s₀ ∈ List.insertionSort strLe (schemasOf cat table) :=
          (List.mem_insertionSort strLe).2 hs₀'
        rw [hl] at hin
        exact absurd hin (List.not_mem_nil _)
      | cons x xs => exact ⟨x, by simp⟩
    have hsmem : s ∈ schemasOf cat table := by
      have hin : s ∈ List.insertionSort strLe (schemasOf cat table) := by
        cases hl : List.insertionSort strLe (schemasOf cat table) with
        | nil => rw [hl] at hhead; simp at hhead
        | cons x xs =>
          rw [hl] at hhead
          simp only [List.head?_cons, Option.some.injEq] at hhead
          rw [← hhead]
          exact List.mem_cons_self _ _
      exact (List.mem_insertionSort strLe).1 hin
    have hmin : ∀ s', s' ∈ schemasOf cat table → strLe s s' := by
      intro s' hs'
      exact head?_sorted_le hsorted hhead s'
        ((List.mem_insertionSort strLe).2 hs')
    have hsne : ¬ s = "" := fun he => hne (he ▸ hsmem)
    have hcheck : check_table_exists cfg cat table = ⟨true, s, true⟩ := by
      simp [check_table_exists, hmem, find_table_schema, hhead, hsne]
    rw [hcheck]
    refine ⟨rfl, rfl, mem_schemasOf.1 hsmem, ?_, ?_⟩
    · intro s' hs'
      exact hmin s' (mem_schemasOf.2 hs')
    · simp [check_table_exists, mem_schemasOf.1 hsmem]

/-- Counterexample to claim C7 as stated: at X = "" the Python truthiness
test drops the label condition entirely, so the call returns label-details
that do not co-occur with the label "" in any row. -/
theorem C7_counterexample : ¬ C7Claim := by
  intro h
  obtain ⟨-, h2⟩ := h "" [⟨"p", some "a", some "d", none⟩]
  obtain ⟨r, hr, hlab, -⟩ := h2 "d" (by decide)
  have hrr : r = ⟨"p", some "a", some "d", none⟩ := by simpa using hr
  exact absurd (hrr ▸ hlab) (by decide)

/-- Claim C7 as amended: for every NONEMPTY label X,
`get_distinct_label_details` filtered by X is a subset of the unfiltered
call, every returned element co-occurs with X in some row, the unfiltered
elements are non-null label-details of actual rows, and both results are
deduplicated and lexicographically sorted. -/
theorem C7_label_detail_subset (t : Table) (X : String) (hX : X ≠ "") :
    (∀ d ∈ get_distinct_label_details t (some X),
      d ∈ get_distinct_label_details t none) ∧
    (∀ d ∈ get_distinct_label_details t (some X),
      ∃ r, r ∈ t ∧ r.label = some X ∧ r.labelDetail = some d) ∧
    (∀ d ∈ get_distinct_label_details t none,
      ∃ r, r ∈ t ∧ r.labelDetail = some d) ∧
    (get_distinct_label_details t (some X)).Nodup ∧
    (get_distinct_label_details t none).Nodup ∧
    (get_distinct_label_details t (some X)).Sorted strLe ∧
    (get_distinct_label_details t none).Sorted strLe := by
  have htr : pyTruthy (some X) = true := pyTruthy_some_of_ne hX
  have hco : ∀ d ∈ get_distinct_label_details t (some X),
      ∃ r, r ∈ t ∧ r.label = some X ∧ r.labelDetail = some d := by
    intro d hd
    have hv := mem_gdld.1 hd
    unfold labelDetailValues at hv
    rw [htr] at hv
    simp only [if_true] at hv
    obtain ⟨r, hr, hd'⟩ := List.mem_filterMap.1 hv
    obtain ⟨hrt, hlab⟩ := List.mem_filter.1 hr
    exact ⟨r, hrt, by simpa using hlab, hd'⟩
  have hsub : ∀ d ∈ get_distinct_label_details t (some X),
      d ∈ get_distinct_label_details t none := by
    intro d hd
    obtain ⟨r, hrt, -, hd'⟩ := hco d hd
    apply mem_gdld.2
    exact List.mem_filterMap.2 ⟨r, hrt, hd'⟩
  have hnn : ∀ d ∈ get_distinct_label_details t none,
      ∃ r, r ∈ t ∧ r.labelDetail = some d := by
    intro d hd
    have hv : d ∈ t.filterMap ImageRow.labelDetail := mem_gdld.1 hd
    obtain ⟨r, hrt, hd'⟩ := List.mem_filterMap.1 hv
    exact ⟨r, hrt, hd'⟩
  have hnd : ∀ lab, (get_distinct_label_details t lab).Nodup := by
    intro lab
    unfold get_distinct_label_details
    exact ((List.perm_insertionSort strLe _).nodup_iff).2 (List.nodup_dedup _)
  have hso : ∀ lab, (get_distinct_label_details t lab).Sorted strLe := by
    intro lab
    unfold get_distinct_label_details
    exact List.sorted_insertionSort strLe _
  exact ⟨hsub, hco, hnn, hnd _, hnd _, hso _, hso _⟩

/-- Witness for the amended C7 at a one-row table and the label "a". -/
theorem C7_label_detail_subset_witness :
    (get_distinct_label_details [⟨"p", some "a", some "d", none⟩]
      (some "a")).Nodup ∧
    (get_distinct_label_details [⟨"p", some "a", some "d", none⟩]
      (some "a")).Sorted strLe :=
  ⟨(C7_label_detail_subset [⟨"p", some "a", some "d", none⟩] "a"
      (by decide)).2.2.2.1,
   (C7_label_detail_subset [⟨"p", some "a", some "d", none⟩] "a"
      (by decide)).2.2.2.2.2.1⟩

/-- Witness for C3: the table lives only in schema "alt", not in the
configured "example"; one call relocates, the second uses the cheap probe. -/
theorem C3_schema_resolution_witness :
    (check_table_exists "example" [("alt", "image_predictions")]
      "image_predictions").found = true ∧
    (check_table_exists "example" [("alt", "image_predictions")]
      "image_predictions").scanned = true ∧
    check_table_exists
      (check_table_exists "example" [("alt", "image_predictions")]
        "image_predictions").schema
      [("alt", "image_predictions")] "image_predictions" =
      ⟨true,
        (check_table_exists "example" [("alt", "image_predictions")]
          "image_predictions").schema, false⟩ := by
  have h := (C3_schema_resolution "example" "image_predictions"
    [("alt", "image_predictions")] (by decide)).2 (by decide) "alt" (by decide)
  exact ⟨h.1, h.2.1, h.2.2.2.2⟩

/-- Counterexample to claim C2 as stated: Python `str.replace` removes ALL
occurrences of `dbfs:`, not only the leading marker, so a path containing
`dbfs:` again after the prefix does not normalize to the suffix after the
marker. -/
theorem C2_counterexample : ¬ C2Claim := by
  intro h
  have hc := h "dbfs:/Volumes/a/dbfs:b.png" (by decide)
  revert hc
  decide

/-- Claim C2 as amended: `load_image_from_volume` normalizes the path before
dispatch as follows — a path starting with `dbfs:/Volumes/` has EVERY
occurrence of `dbfs:` removed (which strips the leading marker, and equals
the claimed suffix whenever `dbfs:` occurs nowhere else); a path starting
with `/Volumes/` is used unchanged; a bare filename (no `/`) with a dot and
a recognized image extension is prefixed with the configured base directory;
a path starting with `/` but not with `/Volumes/` that contains `/Volumes/`
at position i keeps only the suffix from i; and a pure numeric string, a
bare filename without dot, or a path starting with `/` without a
`/Volumes/` segment is rejected with `none`. -/
theorem C2_normalization (s : String) :
    (startsWithL "dbfs:/Volumes/".toList s.toList = true →
      normalize_volume_path s =
        some (String.mk (replaceAllL "dbfs:".toList [] s.toList))) ∧
    (startsWithL "/Volumes/".toList s.toList = true →
      normalize_volume_path s = some s) ∧
    (s.toList.contains '/' = false →
      (s.toList.contains '.' &&
        IMAGE_EXTS.any (fun e => endsWithL e.toList (lowerL s.toList))) = true →
      normalize_volume_path s = some (VOLUME_BASE_PATH ++ "/" ++ s)) ∧
    (startsWithL ['/'] s.toList = true →
      startsWithL "/Volumes/".toList s.toList = false →
      ∀ i, findSub "/Volumes/".toList s.toList = some i →
        normalize_volume_path s = some (String.mk (s.toList.drop i))) ∧
    (isDigitL s.toList = true → normalize_volume_path s = none) ∧
    (s.toList.contains '/' = false → s.toList.contains '.' = false →
      normalize_volume_path s = none) ∧
    (startsWithL ['/'] s.toList = true →
      containsSub "/Volumes/".toList s.toList = false →
      normalize_volume_path s = none) := by
  have hdbfs : "dbfs:/Volumes/".toList = 'd' :: "bfs:/Volumes/".toList := by
    decide
  have hvol : "/Volumes/".toList = '/' :: "Volumes/".toList := by decide
  refine ⟨?_, ?_, ?_, ?_, ?_, ?_, ?_⟩
  · intro h1
    simp only [normalize_volume_path]
    rw [if_pos h1]
  · intro h2
    obtain ⟨t0, ht0⟩ : ∃ t, s.toList = '/' :: t := by
      apply startsWith_slash_shape s.toList
      have h2' := h2
      rw [hvol] at h2'
      cases hc : s.toList with
      | nil =>
        rw [hc] at h2'
        simp [startsWithL] at h2'
      | cons x xs =>
        rw [hc] at h2'
        have hx := startsWithL_head_eq h2'
        rw [← hx]
        simp [startsWithL]
    have hd : startsWithL "dbfs:/Volumes/".toList s.toList = false := by
      rw [hdbfs, ht0]
      exact not_startsWithL_of_head_ne (by decide)
    simp only [normalize_volume_path]
    rw [if_neg (ne_true_of_false hd), if_pos h2]
  · intro hns hext
    have hns' : '/' ∉ s.toList := not_mem_of_containsC_false hns
    have hd : startsWithL "dbfs:/Volumes/".toList s.toList = false :=
      startsWithL_false_of_not_mem (c := '/') (by decide) hns'
    have hv : startsWithL "/Volumes/".toList s.toList = false :=
      startsWithL_false_of_not_mem (c := '/') (by decide) hns'
    have hext2 := hext
    rw [Bool.and_eq_true] at hext2
    have hdot : '.' ∈ s.toList := mem_of_containsC hext2.1
    have hdig : isDigitL s.toList = false :=
      isDigitL_false_of_mem hdot (by decide)
    simp only [normalize_volume_path]
    rw [if_neg (ne_true_of_false hd), if_neg (ne_true_of_false hv),
      if_neg (ne_true_of_false hdig), if_pos (bnot_true_of_false hns),
      if_pos hext]
  · intro hsl hnv i hfind
    obtain ⟨t0, ht0⟩ := startsWith_slash_shape s.toList hsl
    have hd : startsWithL "dbfs:/Volumes/".toList s.toList = false := by
      rw [hdbfs, ht0]
      exact not_startsWithL_of_head_ne (by decide)
    have hdig : isDigitL s.toList = false :=
      isDigitL_false_of_mem (by rw [ht0]; exact List.mem_cons_self _ _)
        (by decide)
    have hcm : s.toList.contains '/' = true :=
      containsC_of_mem (by rw [ht0]; exact List.mem_cons_self _ _)
    have hcs : containsSub "/Volumes/".toList s.toList = true := by
      unfold containsSub
      rw [hfind]
      rfl
    simp only [normalize_volume_path]
    rw [if_neg (ne_true_of_false hd), if_neg (ne_true_of_false hnv),
      if_neg (ne_true_of_false hdig), if_neg (bnot_ne_true_of_true hcm),
      if_pos hsl, if_neg (bnot_ne_true_of_true hcs), hfind]
  · intro hdig
    have hparts := hdig
    simp only [isDigitL, Bool.and_eq_true] at hparts
    have hd : startsWithL "dbfs:/Volumes/".toList s.toList = false :=
      startsWithL_false_of_all_digits (c := 'd') (by decide) (by decide)
        hparts.2
    have hv : startsWithL "/Volumes/".toList s.toList = false :=
      startsWithL_false_of_all_digits (c := '/') (by decide) (by decide)
        hparts.2
    simp only [normalize_volume_path]
    rw [if_neg (ne_true_of_false hd), if_neg (ne_true_of_false hv),
      if_pos hdig]
  · intro hns hnd
    have hns' : '/' ∉ s.toList := not_mem_of_containsC_false hns
    have hd : startsWithL "dbfs:/Volumes/".toList s.toList = false :=
      startsWithL_false_of_not_mem (c := '/') (by decide) hns'
    have hv : startsWithL "/Volumes/".toList s.toList = false :=
      startsWithL_false_of_not_mem (c := '/') (by decide) hns'
    cases hdig : isDigitL s.toList with
    | true =>
      simp only [normalize_volume_path]
      rw [if_neg (ne_true_of_false hd), if_neg (ne_true_of_false hv),
        if_pos hdig]
    | false =>
      simp only [normalize_volume_path]
      rw [if_neg (ne_true_of_false hd), if_neg (ne_true_of_false hv),
        if_neg (ne_true_of_false hdig), if_pos (bnot_true_of_false hns),
        if_neg (fun hc => by
          rw [Bool.and_eq_true] at hc
          rw [hnd] at hc
          exact Bool.noConfusion hc.1)]
  · intro hsl hnc
    obtain ⟨t0, ht0⟩ := startsWith_slash_shape s.toList hsl
    have hd : startsWithL "dbfs:/Volumes/".toList s.toList = false := by
      rw [hdbfs, ht0]
      exact not_startsWithL_of_head_ne (by decide)
    have hv : startsWithL "/Volumes/".toList s.toList = false := by
      cases hsw : startsWithL "/Volumes/".toList s.toList with
      | false => rfl
      | true =>
        exfalso
        rw [startsWithL_containsSub hsw] at hnc
        exact Bool.noConfusion hnc
    have hdig : isDigitL s.toList = false :=
      isDigitL_false_of_mem (by rw [ht0]; exact List.mem_cons_self _ _)
        (by decide)
    have hcm : s.toList.contains '/' = true :=
      containsC_of_mem (by rw [ht0]; exact List.mem_cons_self _ _)
    simp only [normalize_volume_path]
    rw [if_neg (ne_true_of_false hd), if_neg (ne_true_of_false hv),
      if_neg (ne_true_of_false hdig), if_neg (bnot_ne_true_of_true hcm),
      if_pos hsl, if_pos (bnot_true_of_false hnc)]

/-- Witness for the amended C2: the bare-filename case constructs the path
under the configured base directory. -/
theorem C2_normalization_witness :
    normalize_volume_path "c.png" =
      some "/Volumes/demos/image_app/images/c.png" :=
  ((C2_normalization "c.png").2.2.1 (by decide) (by decide)).trans (by decide)

/-- Claim C10 (confirmed): `load_image_from_volume` is total over its input;
for every path (None, "", or any malformed shape included) and any behavior
of the download and decode steps it returns either a decoded image or
`None`: a rejected path, a transport error or a decode error each give
`None`, and only the full success chain gives an image. -/
theorem C10_load_image_total {α : Type}
    (download : String → Except String (List Nat))
    (decode : List Nat → Except String α) (p : Option String) :
    (load_image_from_volume download decode p = none ∨
      ∃ img, load_image_from_volume download decode p = some img) ∧
    load_image_from_volume download decode none = none ∧
    (∀ s, p = some s → normalize_volume_path (stripPy s) = none →
      load_image_from_volume download decode p = none) ∧
    (∀ s np e, p = some s → normalize_volume_path (stripPy s) = some np →
      download np = .error e →
      load_image_from_volume download decode p = none) ∧
    (∀ s np bs e, p = some s → normalize_volume_path (stripPy s) = some np →
      download np = .ok bs → decode bs = .error e →
      load_image_from_volume download decode p = none) ∧
    (∀ s np bs img, p = some s → normalize_volume_path (stripPy s) = some np →
      download np = .ok bs → decode bs = .ok img →
      load_image_from_volume download decode p = some img) := by
  have hempty : ∀ s : String, s.toList.isEmpty = true → s = "" := by
    intro s hs
    obtain ⟨data⟩ := s
    cases data with
    | nil => rfl
    | cons c cs => simp [String.toList] at hs
  have hnone : normalize_volume_path (stripPy "") = none := by decide
  have hnonnil : ∀ s : String, s.toList.isEmpty = false → ¬ s.data = [] := by
    intro s he h0
    have h1 : s.toList = [] := h0
    rw [h1] at he
    exact Bool.noConfusion he
  refine ⟨?_, rfl, ?_, ?_, ?_, ?_⟩
  · cases h : load_image_from_volume download decode p with
    | none => exact Or.inl rfl
    | some img => exact Or.inr ⟨img, rfl⟩
  · rintro s rfl hn
    cases he : s.toList.isEmpty with
    | true =>
      rw [hempty s he]
      rfl
    | false => simp [load_image_from_volume, hnonnil s he, hn]
  · rintro s np e rfl hn hdl
    cases he : s.toList.isEmpty with
    | true =>
      rw [hempty s he] at hn
      rw [hnone] at hn
      exact Option.noConfusion hn
    | false => simp [load_image_from_volume, hnonnil s he, hn, hdl]
  · rintro s np bs e rfl hn hdl hdec
    cases he : s.toList.isEmpty with
    | true =>
      rw [hempty s he] at hn
      rw [hnone] at hn
      exact Option.noConfusion hn
    | false => simp [load_image_from_volume, hnonnil s he, hn, hdl, hdec]
  · rintro s np bs img rfl hn hdl hdec
    cases he : s.toList.isEmpty with
    | true =>
      rw [hempty s he] at hn
      rw [hnone] at hn
      exact Option.noConfusion hn
    | false => simp [load_image_from_volume, hnonnil s he, hn, hdl, hdec]

/-- Witness for C10: the full success chain on a valid volume path, with a
download returning one byte and a decoder returning the value 7. -/
theorem C10_load_image_total_witness :
    load_image_from_volume (fun _ => Except.ok [0])
      (fun _ => Except.ok (7 : Nat)) (some "/Volumes/a/b.png") = some 7 :=
  (C10_load_image_total (fun _ => Except.ok [0]) (fun _ => Except.ok (7 : Nat))
      (some "/Volumes/a/b.png")).2.2.2.2.2 "/Volumes/a/b.png" "/Volumes/a/b.png"
    [0] 7 rfl (by decide) rfl rfl

end Lakebase
